import Mathlib

/-!
Shallow embedding of `src/index.ts` (luaBundler): a Lua module bundler that
resolves dotted `require` references against a base directory, recursively
extracts dependencies with a regex scan, registers deduplicated modules with
fresh unique identifiers, rewrites require call sites, and assembles a single
output script.

The filesystem is modelled as an association list from paths to contents
(`existsSync` = key present, `readFileSync` = stored content).  `randomUUID`
is modelled by minting identifiers from a fresh counter (`uuid n`), which
captures exactly the freshness that the code relies on.  `path.resolve`
applied to `baseDir` and the dot-separated segments is modelled as joining the
segments with `/` under `baseDir`, as the spec describes.  The unbounded
recursion of `getRequires` is modelled with an explicit fuel parameter
(`none` = the recursion would not have returned), mirroring the JS call
stack.
-/

/-- Filesystem model: association list from path to file content. -/
structure FS where
  files : List (String × String)
deriving DecidableEq

/-- `fs.existsSync(p)`. -/
def FS.existsSync (fs : FS) (p : String) : Bool :=
  (fs.files.lookup p).isSome

/-- `fs.readFileSync(p).toString("utf8")` (only ever called on existing paths). -/
def FS.read (fs : FS) (p : String) : String :=
  (fs.files.lookup p).getD ""

/-- `class LuaModule` from `src/index.ts`. -/
structure LuaModule where
  identifier : String
  path : String
  uniqueIdentifier : String
  content : String
deriving DecidableEq

/-- Model of `randomUUID()`: identifiers minted from a fresh counter. -/
def uuid (n : Nat) : String :=
  ⟨List.replicate (n + 1) 'u'⟩

/-- `class LuaBundle` from `src/index.ts` (fields only; methods below). -/
structure LuaBundle where
  modules : List LuaModule
  mainFile : String
  baseDir : String
deriving DecidableEq

/-- The `LuaBundle` constructor: throws when the main file does not exist,
otherwise starts with no modules and `baseDir || "./"` (note `""` is falsy
in JS, hence also replaced by `"./"`). -/
def LuaBundle.init (fs : FS) (mainFile : String) (baseDir : Option String) :
    Except String LuaBundle :=
  if fs.existsSync mainFile then
    .ok { modules := [],
          mainFile := mainFile,
          baseDir := match baseDir with
                     | none => "./"
                     | some s => if s = "" then "./" else s }
  else
    .error "Main file does not exist"

/-- JS `value.split(".")` on the character list. -/
def splitDots : List Char → List (List Char)
  | [] => [[]]
  | c :: rest =>
    match splitDots rest with
    | [] => [[]]
    | g :: gs => if c = '.' then [] :: g :: gs else (c :: g) :: gs

/-- Model of `resolve(baseDir, ...value.split("."))`: the dotted segments
joined with `/` under `baseDir`. -/
def joinPath (baseDir : String) (value : String) : String :=
  ⟨baseDir.data ++ '/' :: List.intercalate ['/'] (splitDots value.data)⟩

/-- `LuaBundle.resolveRequire`: probe `<joined>.lua` then `<joined>.luau`,
returning the first candidate that exists, else `null`. -/
def LuaBundle.resolveRequire (fs : FS) (b : LuaBundle) (value : String) :
    Option String :=
  let c1 := joinPath b.baseDir value ++ ".lua"
  let c2 := joinPath b.baseDir value ++ ".luau"
  if fs.existsSync c1 then some c1
  else if fs.existsSync c2 then some c2
  else none

/-- The characters recognized by the `["']` character class. -/
def isQuote (c : Char) : Bool := c == '"' || c == '\''

/-- The characters matched by `.` in a JS regex without the `s` flag
(everything except the four line terminators). -/
def isDotChar (c : Char) : Bool :=
  !(c == '\n' || c == '\r' || c == Char.ofNat 0x2028 || c == Char.ofNat 0x2029)

/-- The literal part `require\(` of the patterns. -/
def reqPat : List Char := ['r', 'e', 'q', 'u', 'i', 'r', 'e', '(']

/-- One literal pattern character, optionally case-insensitive (`i` flag). -/
def patChar (ci : Bool) (c p : Char) : Bool :=
  if ci then c.toLower == p else c == p

/-- Consume a literal pattern from the front of the input. -/
def dropPat (ci : Bool) : List Char → List Char → Option (List Char)
  | [], s => some s
  | _ :: _, [] => none
  | p :: ps, c :: cs => if patChar ci c p then dropPat ci ps cs else none

/-- The tail `.*?["']\)` of the patterns, with lazy semantics: at each
position first try to complete with a quote followed by `)`, otherwise
consume one `.`-matchable character.  Returns the text consumed by `.*?`
(the capture group of the remap pattern) and the input after the match. -/
def scanBody : List Char → Option (List Char × List Char)
  | [] => none
  | c :: rest =>
    if isQuote c then
      match rest with
      | ')' :: r => some ([], r)
      | _ =>
        if isDotChar c then (scanBody rest).map (fun p => (c :: p.1, p.2))
        else none
    else if isDotChar c then (scanBody rest).map (fun p => (c :: p.1, p.2))
    else none

/-- Try to match `require\(["'].*?["']\)` at the start of `s`; on success
return the `.*?` body and the input after the match (the whole match has
length `11 + body.length`). -/
def matchAt (ci : Bool) (s : List Char) : Option (List Char × List Char) :=
  match dropPat ci reqPat s with
  | none => none
  | some s1 =>
    match s1 with
    | [] => none
    | q :: s2 => if isQuote q then scanBody s2 else none

/-- Global scan of `value.match(/require\(["'].*?["']\)/gi)`: try a match at
each position, emit the matched text, and resume after the match (`skip`
counts characters of the current match still to be passed over). -/
def findAux (ci : Bool) : Nat → List Char → List (List Char)
  | _, [] => []
  | skip+1, _ :: rest => findAux ci skip rest
  | 0, c :: rest =>
    match matchAt ci (c :: rest) with
    | some (b, _) => (c :: rest).take (11 + b.length) :: findAux ci (10 + b.length) rest
    | none => findAux ci 0 rest

/-- All matches of `require\(["'].*?["']\)` (flags as given). -/
def findMatches (ci : Bool) (s : List Char) : List (List Char) :=
  findAux ci 0 s

/-- `v.replace(/require\(["'](.*?)["']\)/, "$1")`: replace the first
(case-sensitive) match by its capture group; if there is no match the
input is returned unchanged. -/
def replaceFirstWithGroup : List Char → List Char
  | [] => []
  | c :: rest =>
    match matchAt false (c :: rest) with
    | some (b, r) => b ++ r
    | none => c :: replaceFirstWithGroup rest

/-- `value.replace(/require\(["'](.*?)["']\)/g, cb)` where the callback may
throw: every match is replaced by `cb` applied to its capture group, other
characters are copied, and a thrown error aborts the whole replacement. -/
def remapAux (f : List Char → Except String (List Char)) :
    Nat → List Char → Except String (List Char)
  | _, [] => .ok []
  | skip+1, _ :: rest => remapAux f skip rest
  | 0, c :: rest =>
    match matchAt false (c :: rest) with
    | some (b, _) =>
      match f b with
      | .error e => .error e
      | .ok repl =>
        match remapAux f (10 + b.length) rest with
        | .error e => .error e
        | .ok tail => .ok (repl ++ tail)
    | none =>
      match remapAux f 0 rest with
      | .error e => .error e
      | .ok tail => .ok (c :: tail)

/-- The callback of `LuaBundle.remapRequires`: resolve the captured
reference, look up the first registered module with that resolved path, and
produce `require("<uniqueIdentifier>")`; throw `Module "<ref>" not found`
when resolution or the lookup fails. -/
def remapCallback (fs : FS) (b : LuaBundle) (body : List Char) :
    Except String (List Char) :=
  let value : String := ⟨body⟩
  match b.resolveRequire fs value with
  | none => .error ("Module \"" ++ value ++ "\" not found")
  | some resolvedPath =>
    match b.modules.find? (fun m => m.path == resolvedPath) with
    | none => .error ("Module \"" ++ value ++ "\" not found")
    | some m => .ok ("require(\"" ++ m.uniqueIdentifier ++ "\")").data

/-- `LuaBundle.remapRequires`. -/
def LuaBundle.remapRequires (fs : FS) (b : LuaBundle) (value : String) :
    Except String String :=
  match remapAux (remapCallback fs b) 0 value.data with
  | .error e => .error e
  | .ok l => .ok ⟨l⟩

/-- The `matches?.forEach` body of `LuaBundle.getRequires`: for each matched
text, extract the reference with `replaceFirstWithGroup`, resolve it, and on
success push the pair followed by the recursive extraction of the resolved
file's content; unresolved matches are skipped silently. -/
def getReqAux (fs : FS) (b : LuaBundle)
    (recur : String → Option (List (String × String))) :
    List (List Char) → Option (List (String × String))
  | [] => some []
  | v :: vs =>
    let luaPath : String := ⟨replaceFirstWithGroup v⟩
    match b.resolveRequire fs luaPath with
    | some resolvedPath =>
      match recur (fs.read resolvedPath) with
      | none => none
      | some rest =>
        match getReqAux fs b recur vs with
        | none => none
        | some tail => some ((luaPath, resolvedPath) :: rest ++ tail)
    | none => getReqAux fs b recur vs

/-- `LuaBundle.getRequires`, with fuel modelling the JS call stack: `none`
means the recursion exceeded the given depth (in the source this is
unbounded recursion with no cycle guard). -/
def LuaBundle.getRequiresF (fs : FS) (b : LuaBundle) :
    Nat → String → Option (List (String × String))
  | 0, _ => none
  | fuel+1, value => getReqAux fs b (b.getRequiresF fs fuel) (findMatches true value.data)

/-- The registration loop of `LuaBundle.bundle`: for each extracted pair, if
no module with the same `identifier` (the reference) is registered yet,
append a new `LuaModule` with content read fresh from the resolved path and
a freshly minted unique identifier. -/
def registerAll (fs : FS) :
    List LuaModule → Nat → List (String × String) → List LuaModule × Nat
  | mods, n, [] => (mods, n)
  | mods, n, (luaPath, resolvedPath) :: rest =>
    if mods.any (fun m => m.identifier == luaPath) then
      registerAll fs mods n rest
    else
      registerAll fs
        (mods ++ [{ identifier := luaPath, path := resolvedPath,
                    uniqueIdentifier := uuid n, content := fs.read resolvedPath }])
        (n + 1) rest

/-- The fixed runtime shim at the head of the template literal in
`LuaBundle.bundle`: an empty lookup table and a `require` function that
indexes the table and invokes the stored function. -/
def shimText : String :=
  "\nlocal modules = \x7b\x7d\nlocal require = function(name)\n  return modules[name]()\nend\n"

/-- One wrapped module entry:
`modules["<uid>"] = function()\n<body>\nend`. -/
def wrapEntry (uid body : String) : String :=
  "modules[\"" ++ uid ++ "\"] = function()\n" ++ body ++ "\nend"

/-- The `this.modules.map(...)` of `LuaBundle.bundle`: remap each module's
content and wrap it; a thrown remap error aborts the whole map. -/
def buildEntries (fs : FS) (b : LuaBundle) :
    List LuaModule → Except String (List String)
  | [] => .ok []
  | m :: ms =>
    match b.remapRequires fs m.content with
    | .error e => .error e
    | .ok body =>
      match buildEntries fs b ms with
      | .error e => .error e
      | .ok rest => .ok (wrapEntry m.uniqueIdentifier body :: rest)

/-- `.join("\n")`. -/
def joinNL : List String → String
  | [] => ""
  | [s] => s
  | s :: rest => s ++ "\n" ++ joinNL rest

/-- `LuaBundle.bundle`: read the main file, extract the transitive requires
(fuel models the call stack; `none` = nontermination), register the
deduplicated modules, then emit shim + wrapped remapped modules + remapped
main content.  The inner `Except` carries thrown errors; on success the
returned pair is the bundled text and the bundle with its populated module
list. -/
def LuaBundle.bundle (fs : FS) (b : LuaBundle) (fuel nextId : Nat) :
    Option (Except String (String × LuaBundle)) :=
  let main := fs.read b.mainFile
  match b.getRequiresF fs fuel main with
  | none => none
  | some requiredFiles =>
    let mods := (registerAll fs b.modules nextId requiredFiles).1
    let b' : LuaBundle := { b with modules := mods }
    some (
      match buildEntries fs b' mods with
      | .error e => .error e
      | .ok entries =>
        match b'.remapRequires fs main with
        | .error e => .error e
        | .ok mainR =>
          .ok (shimText ++ joinNL entries ++ "\n" ++ mainR ++ "\n", b'))

/-- The resolved paths of the matches in `value` (the files `getRequires`
recurses into): the dependency relation of the require graph. -/
def pathDeps (fs : FS) (b : LuaBundle) (value : String) : List String :=
  (findMatches true value.data).filterMap
    (fun v => b.resolveRequire fs ⟨replaceFirstWithGroup v⟩)

/-! ## Helper lemmas about the embedded scanner -/

/-- A call site `require(<q1><r><q2>)` with explicit quote characters. -/
def mkCall (q1 q2 : Char) (r : String) : String :=
  ⟨'r' :: 'e' :: 'q' :: 'u' :: 'i' :: 'r' :: 'e' :: '(' :: q1 :: (r.data ++ [q2, ')'])⟩

theorem uuid_inj {a b : Nat} (h : uuid a = uuid b) : a = b := by
  have h' := congrArg String.data h
  simpa [uuid] using congrArg List.length h'

theorem strEta (s : String) : (⟨s.data⟩ : String) = s := rfl

theorem dropPat_eq_drop (ci : Bool) :
    ∀ (p s r : List Char), dropPat ci p s = some r → r = s.drop p.length := by
  intro p
  induction p with
  | nil => intro s r h; simpa [dropPat] using h.symm
  | cons x xs ih =>
    intro s r h
    cases s with
    | nil => simp [dropPat] at h
    | cons c cs =>
      simp only [dropPat] at h
      by_cases hc : patChar ci c x
      · simp [hc] at h
        simpa using ih cs r h
      · simp [hc] at h

theorem dropPat_reqPat (ci : Bool) (s : List Char) :
    dropPat ci reqPat ('r' :: 'e' :: 'q' :: 'u' :: 'i' :: 'r' :: 'e' :: '(' :: s) = some s := by
  cases ci <;> rfl

theorem scanBody_nice {l : List Char}
    (hl : ∀ c ∈ l, isQuote c = false ∧ isDotChar c = true)
    {q : Char} (hq : isQuote q = true) (rest : List Char) :
    scanBody (l ++ q :: ')' :: rest) = some (l, rest) := by
  induction l with
  | nil => simp [scanBody, hq]
  | cons c cs ih =>
    have hc := hl c (by simp)
    have ih' := ih (fun x hx => hl x (by simp [hx]))
    simp only [List.cons_append, scanBody, hc.1, hc.2, Bool.false_eq_true,
      if_false, if_true, List.append_eq]
    rw [ih']
    rfl

theorem matchAt_mkCall (ci : Bool) {q1 q2 : Char}
    (hq1 : isQuote q1 = true) (hq2 : isQuote q2 = true) {r : String}
    (hr : ∀ c ∈ r.data, isQuote c = false ∧ isDotChar c = true) :
    matchAt ci (mkCall q1 q2 r).data = some (r.data, []) := by
  show matchAt ci ('r' :: 'e' :: 'q' :: 'u' :: 'i' :: 'r' :: 'e' :: '(' :: q1 ::
    (r.data ++ [q2, ')'])) = some (r.data, [])
  simp only [matchAt, dropPat_reqPat, hq1, if_true]
  exact scanBody_nice hr hq2 []

theorem findAux_big (ci : Bool) :
    ∀ (s : List Char) (skip : Nat), s.length ≤ skip → findAux ci skip s = [] := by
  intro s
  induction s with
  | nil => intro skip _; cases skip <;> rfl
  | cons c cs ih =>
    intro skip h
    cases skip with
    | zero => simp at h
    | succ k => simpa [findAux] using ih k (by simpa using h)

theorem remapAux_big (f : List Char → Except String (List Char)) :
    ∀ (s : List Char) (skip : Nat), s.length ≤ skip → remapAux f skip s = .ok [] := by
  intro s
  induction s with
  | nil => intro skip _; cases skip <;> rfl
  | cons c cs ih =>
    intro skip h
    cases skip with
    | zero => simp at h
    | succ k => simpa [remapAux] using ih k (by simpa using h)

theorem mkCall_length (q1 q2 : Char) (r : String) :
    (mkCall q1 q2 r).data.length = 11 + r.data.length := by
  simp [mkCall]
  omega

theorem findMatches_mkCall (ci : Bool) {q1 q2 : Char}
    (hq1 : isQuote q1 = true) (hq2 : isQuote q2 = true) {r : String}
    (hr : ∀ c ∈ r.data, isQuote c = false ∧ isDotChar c = true) :
    findMatches ci (mkCall q1 q2 r).data = [(mkCall q1 q2 r).data] := by
  have hm := matchAt_mkCall ci hq1 hq2 hr
  show findAux ci 0 (mkCall q1 q2 r).data = [(mkCall q1 q2 r).data]
  show findAux ci 0 ('r' :: 'e' :: 'q' :: 'u' :: 'i' :: 'r' :: 'e' :: '(' :: q1 ::
    (r.data ++ [q2, ')'])) = [(mkCall q1 q2 r).data]
  have hm' : matchAt ci ('r' :: 'e' :: 'q' :: 'u' :: 'i' :: 'r' :: 'e' :: '(' :: q1 ::
      (r.data ++ [q2, ')'])) = some (r.data, []) := hm
  have hrest : ('e' :: 'q' :: 'u' :: 'i' :: 'r' :: 'e' :: '(' :: q1 ::
      (r.data ++ [q2, ')'])).length ≤ 10 + r.data.length := by
    simp; omega
  have htake : ('r' :: 'e' :: 'q' :: 'u' :: 'i' :: 'r' :: 'e' :: '(' :: q1 ::
      (r.data ++ [q2, ')'])).take (11 + r.data.length) = (mkCall q1 q2 r).data := by
    apply List.take_of_length_le
    rw [show ('r' :: 'e' :: 'q' :: 'u' :: 'i' :: 'r' :: 'e' :: '(' :: q1 ::
      (r.data ++ [q2, ')'])) = (mkCall q1 q2 r).data from rfl, mkCall_length]
  rw [findAux, hm']
  simp only [findAux_big ci _ _ hrest, htake]

theorem replaceFirstWithGroup_mkCall {q1 q2 : Char}
    (hq1 : isQuote q1 = true) (hq2 : isQuote q2 = true) {r : String}
    (hr : ∀ c ∈ r.data, isQuote c = false ∧ isDotChar c = true) :
    replaceFirstWithGroup (mkCall q1 q2 r).data = r.data := by
  have hm : matchAt false ('r' :: 'e' :: 'q' :: 'u' :: 'i' :: 'r' :: 'e' :: '(' :: q1 ::
      (r.data ++ [q2, ')'])) = some (r.data, []) := matchAt_mkCall false hq1 hq2 hr
  show replaceFirstWithGroup ('r' :: 'e' :: 'q' :: 'u' :: 'i' :: 'r' :: 'e' :: '(' :: q1 ::
    (r.data ++ [q2, ')'])) = r.data
  rw [replaceFirstWithGroup, hm]
  simp

theorem remapAux_mkCall (f : List Char → Except String (List Char)) {q1 q2 : Char}
    (hq1 : isQuote q1 = true) (hq2 : isQuote q2 = true) {r : String}
    (hr : ∀ c ∈ r.data, isQuote c = false ∧ isDotChar c = true) :
    remapAux f 0 (mkCall q1 q2 r).data =
      match f r.data with
      | .error e => .error e
      | .ok repl => .ok repl := by
  have hm : matchAt false ('r' :: 'e' :: 'q' :: 'u' :: 'i' :: 'r' :: 'e' :: '(' :: q1 ::
      (r.data ++ [q2, ')'])) = some (r.data, []) := matchAt_mkCall false hq1 hq2 hr
  show remapAux f 0 ('r' :: 'e' :: 'q' :: 'u' :: 'i' :: 'r' :: 'e' :: '(' :: q1 ::
    (r.data ++ [q2, ')'])) = _
  have hrest : ('e' :: 'q' :: 'u' :: 'i' :: 'r' :: 'e' :: '(' :: q1 ::
      (r.data ++ [q2, ')'])).length ≤ 10 + r.data.length := by
    simp; omega
  rw [remapAux, hm]
  simp only [remapAux_big f _ _ hrest]
  cases f r.data <;> simp

theorem remapRequires_mkCall (fs : FS) (b : LuaBundle) {q1 q2 : Char}
    (hq1 : isQuote q1 = true) (hq2 : isQuote q2 = true) {r : String}
    (hr : ∀ c ∈ r.data, isQuote c = false ∧ isDotChar c = true) :
    b.remapRequires fs (mkCall q1 q2 r) =
      match remapCallback fs b r.data with
      | .error e => .error e
      | .ok repl => .ok ⟨repl⟩ := by
  rw [LuaBundle.remapRequires, remapAux_mkCall (remapCallback fs b) hq1 hq2 hr]
  cases remapCallback fs b r.data <;> rfl

theorem matchAt_none_noquote (ci : Bool) {s : List Char}
    (hs : ∀ c ∈ s, isQuote c = false) : matchAt ci s = none := by
  rw [matchAt]
  cases hdp : dropPat ci reqPat s with
  | none => rfl
  | some s1 =>
    have hs1 : s1 = s.drop reqPat.length := dropPat_eq_drop ci reqPat s s1 hdp
    cases hq : s1 with
    | nil => rfl
    | cons q s2 =>
      have hqmem : q ∈ s := by
        apply List.mem_of_mem_drop (n := reqPat.length)
        rw [← hs1, hq]; simp
      simp [hs q hqmem]

theorem findAux_noquote (ci : Bool) {s : List Char}
    (hs : ∀ c ∈ s, isQuote c = false) : ∀ skip, findAux ci skip s = [] := by
  induction s with
  | nil => intro skip; cases skip <;> rfl
  | cons c cs ih =>
    intro skip
    have ih' := ih (fun x hx => hs x (by simp [hx]))
    cases skip with
    | succ k => simpa [findAux] using ih' k
    | zero =>
      rw [findAux, matchAt_none_noquote ci hs]
      exact ih' 0

theorem remapAux_noquote (f : List Char → Except String (List Char)) {s : List Char}
    (hs : ∀ c ∈ s, isQuote c = false) : remapAux f 0 s = .ok s := by
  induction s with
  | nil => rfl
  | cons c cs ih =>
    have ih' := ih (fun x hx => hs x (by simp [hx]))
    rw [remapAux, matchAt_none_noquote false hs, ih']

/-! ## Claim C3: resolution order -/

/-- **C3**: for every reference string, `resolveRequire` splits it on `.`,
joins the segments under `baseDir`, and probes the `.lua` candidate before
the `.luau` candidate, returning the first that exists, and returning `none`
if and only if neither exists. -/
theorem resolveRequire_probe_order (fs : FS) (b : LuaBundle) (v : String) :
    (b.resolveRequire fs v = none ↔
      fs.existsSync (joinPath b.baseDir v ++ ".lua") = false ∧
      fs.existsSync (joinPath b.baseDir v ++ ".luau") = false)
    ∧ (fs.existsSync (joinPath b.baseDir v ++ ".lua") = true →
        b.resolveRequire fs v = some (joinPath b.baseDir v ++ ".lua"))
    ∧ (fs.existsSync (joinPath b.baseDir v ++ ".lua") = false →
        fs.existsSync (joinPath b.baseDir v ++ ".luau") = true →
        b.resolveRequire fs v = some (joinPath b.baseDir v ++ ".luau"))
    ∧ (∀ p, b.resolveRequire fs v = some p →
        p = joinPath b.baseDir v ++ ".lua" ∨ p = joinPath b.baseDir v ++ ".luau") := by
  by_cases h1 : fs.existsSync (joinPath b.baseDir v ++ ".lua") <;>
    by_cases h2 : fs.existsSync (joinPath b.baseDir v ++ ".luau") <;>
    simp [LuaBundle.resolveRequire, h1, h2]

def fsC3 : FS := ⟨[("d/a/b.lua", "1"), ("d/a/b.luau", "2"), ("d/c.luau", "3")]⟩

def bC3 : LuaBundle := ⟨[], "d/a/b.lua", "d"⟩

/-- Witness for C3: with both extensions present `a.b` resolves to the
`.lua` candidate, with only `.luau` present `c` resolves to it, and an
unresolvable reference gives `none`. -/
theorem resolveRequire_probe_order_witness :
    fsC3.existsSync (joinPath bC3.baseDir "a.b" ++ ".lua") = true
    ∧ fsC3.existsSync (joinPath bC3.baseDir "a.b" ++ ".luau") = true
    ∧ bC3.resolveRequire fsC3 "a.b" = some (joinPath bC3.baseDir "a.b" ++ ".lua")
    ∧ bC3.resolveRequire fsC3 "c" = some (joinPath bC3.baseDir "c" ++ ".luau")
    ∧ bC3.resolveRequire fsC3 "z" = none :=
  ⟨by decide, by decide,
   (resolveRequire_probe_order fsC3 bC3 "a.b").2.1 (by decide),
   (resolveRequire_probe_order fsC3 bC3 "c").2.2.1 (by decide) (by decide),
   (resolveRequire_probe_order fsC3 bC3 "z").1.mpr ⟨by decide, by decide⟩⟩

/-! ## Claim C5: fail-fast construction -/

/-- **C5**: constructing a bundle with a nonexistent entry path raises the
construction error, eagerly: the error occurs if and only if the entry path
does not exist, a successful construction has done no extraction work yet
(`modules = []`), and the whole construction depends on the filesystem only
through the existence of the entry path (no other file is touched). -/
theorem init_fail_fast (fs : FS) (mainFile : String) (baseDir : Option String) :
    (LuaBundle.init fs mainFile baseDir = .error "Main file does not exist" ↔
      fs.existsSync mainFile = false)
    ∧ (∀ b, LuaBundle.init fs mainFile baseDir = .ok b →
        b.modules = [] ∧ b.mainFile = mainFile)
    ∧ (∀ fs' : FS, fs'.existsSync mainFile = fs.existsSync mainFile →
        LuaBundle.init fs' mainFile baseDir = LuaBundle.init fs mainFile baseDir) := by
  refine ⟨?_, ?_, ?_⟩
  · by_cases h : fs.existsSync mainFile <;> simp [LuaBundle.init, h]
  · intro b hb
    by_cases h : fs.existsSync mainFile <;> simp [LuaBundle.init, h] at hb
    rw [← hb]
    exact ⟨rfl, rfl⟩
  · intro fs' h
    simp only [LuaBundle.init, h]

/-- Witness for C5: a missing entry path errors; the construction result is
unchanged under any filesystem agreeing on the entry path's existence. -/
theorem init_fail_fast_witness :
    LuaBundle.init ⟨[]⟩ "main.lua" none = .error "Main file does not exist"
    ∧ LuaBundle.init ⟨[("a", "y")]⟩ "main.lua" none = LuaBundle.init ⟨[]⟩ "main.lua" none :=
  ⟨(init_fail_fast ⟨[]⟩ "main.lua" none).1.mpr (by decide),
   (init_fail_fast ⟨[]⟩ "main.lua" none).2.2 ⟨[("a", "y")]⟩ (by decide)⟩

/-! ## Claim C4: strictness asymmetry between extraction and remapping -/

/-- **C4**: a literal require whose reference fails to resolve is silently
skipped by extraction (`getRequires` succeeds with no entry and no error),
while remapping the same call raises the resolution error naming the
reference and aborts with no partial output. -/
theorem extraction_skips_remap_raises (fs : FS) (b : LuaBundle) (fuel : Nat)
    {q1 q2 : Char} (hq1 : isQuote q1 = true) (hq2 : isQuote q2 = true)
    {r : String} (hr : ∀ c ∈ r.data, isQuote c = false ∧ isDotChar c = true)
    (hres : b.resolveRequire fs r = none) :
    b.getRequiresF fs (fuel + 1) (mkCall q1 q2 r) = some []
    ∧ b.remapRequires fs (mkCall q1 q2 r) = .error ("Module \"" ++ r ++ "\" not found") := by
  constructor
  · rw [LuaBundle.getRequiresF, findMatches_mkCall true hq1 hq2 hr, getReqAux]
    simp only [replaceFirstWithGroup_mkCall hq1 hq2 hr, strEta, hres]
    rfl
  · rw [remapRequires_mkCall fs b hq1 hq2 hr]
    simp only [remapCallback, strEta, hres]

def fsC4 : FS := ⟨[]⟩

def bC4 : LuaBundle := ⟨[], "m", "d"⟩

/-- Witness for C4 at the unresolvable reference `missing`. -/
theorem extraction_skips_remap_raises_witness :
    (∀ c ∈ ("missing" : String).data, isQuote c = false ∧ isDotChar c = true)
    ∧ bC4.resolveRequire fsC4 "missing" = none
    ∧ bC4.getRequiresF fsC4 1 (mkCall '"' '"' "missing") = some []
    ∧ bC4.remapRequires fsC4 (mkCall '"' '"' "missing") =
        .error ("Module \"" ++ "missing" ++ "\" not found") :=
  ⟨by decide, by decide,
   (extraction_skips_remap_raises fsC4 bC4 0 (by decide) (by decide)
     (by decide) (by decide)).1,
   (extraction_skips_remap_raises fsC4 bC4 0 (by decide) (by decide)
     (by decide) (by decide)).2⟩

/-! ## Claim C7: pass-through of non-literal require calls (corrected) -/

def fsC7 : FS := ⟨[("d/a\"//b)require(\"c.lua", "")]⟩

def bC7 : LuaBundle :=
  ⟨[⟨"a\"..b)require(\"c", "d/a\"//b)require(\"c.lua", "u", ""⟩], "m", "d"⟩

def tC7 : String := "require(\"a\"..b)require(\"c\")"

/-- Counterexample to C7 as stated: in the text
`require("a"..b)require("c")` the first require call's argument is a
concatenation, not a string literal, yet the lazy pattern matches the whole
text as a single call site (the quote before `c` and the final `)` complete
it), so extraction matches it and remapping rewrites it away: with a file
registered under the garbage reference the remap succeeds and the
non-literal call does not survive byte-for-byte. -/
theorem nonliteral_rewritten_cex :
    findMatches true tC7.data = [tC7.data]
    ∧ bC7.remapRequires fsC7 tC7 = .ok "require(\"u\")"
    ∧ "require(\"u\")" ≠ tC7 :=
  ⟨rfl, rfl, by decide⟩

/-- **C7 (amended)**: in any text containing no quote character at all, no
require call (in particular none with a non-literal argument) is matched by
extraction under either flag set, remapping is the identity, and extraction
produces no entries — the text passes through byte-for-byte.  (The original
universal claim fails when quote characters elsewhere in the text let the
lazy pattern span a non-literal call; see the counterexample.) -/
theorem noquote_passthrough (fs : FS) (b : LuaBundle) (fuel : Nat) {t : String}
    (ht : ∀ c ∈ t.data, isQuote c = false) :
    findMatches true t.data = []
    ∧ findMatches false t.data = []
    ∧ b.remapRequires fs t = .ok t
    ∧ b.getRequiresF fs (fuel + 1) t = some [] := by
  refine ⟨findAux_noquote true ht 0, findAux_noquote false ht 0, ?_, ?_⟩
  · rw [LuaBundle.remapRequires, remapAux_noquote _ ht]
  · rw [LuaBundle.getRequiresF,
      show findMatches true t.data = [] from findAux_noquote true ht 0]
    rfl

/-- Witness for the amended C7 at `local x = require(v) + require(a .. b)`. -/
theorem noquote_passthrough_witness :
    (∀ c ∈ ("local x = require(v) + require(a .. b)" : String).data, isQuote c = false)
    ∧ findMatches true ("local x = require(v) + require(a .. b)" : String).data = []
    ∧ bC4.remapRequires fsC4 "local x = require(v) + require(a .. b)" =
        .ok "local x = require(v) + require(a .. b)" :=
  ⟨by decide,
   (noquote_passthrough fsC4 bC4 0 (by decide)).1,
   (noquote_passthrough fsC4 bC4 0 (by decide)).2.2.1⟩

/-! ## Claim C8: what a rewritten call site looks like (corrected) -/

def fsC8 : FS := ⟨[("d/m.lua", "")]⟩

def bC8 : LuaBundle := ⟨[⟨"m", "d/m.lua", "u", ""⟩], "main.lua", "d"⟩

/-- Counterexample to C8 as stated: remapping the single-quoted call site
`require('m')` produces `require("u")` — the quote characters of the call
site are not left unchanged (the claim's prediction would be
`require('u')`). -/
theorem remap_changes_quotes_cex :
    bC8.remapRequires fsC8 "require('m')" = .ok "require(\"u\")"
    ∧ "require(\"u\")" ≠ "require('u')" :=
  ⟨rfl, by decide⟩

/-- **C8 (amended)**: a rewritten call site is replaced as a whole by
`require("<uniqueId>")` with double quotes, whatever quote characters the
original call used; for double-quoted call sites this coincides with
replacing only the literal argument, but single-quoted call sites get their
quotes rewritten to double quotes. -/
theorem remap_whole_call_doublequoted (fs : FS) (b : LuaBundle)
    {q1 q2 : Char} (hq1 : isQuote q1 = true) (hq2 : isQuote q2 = true)
    {r : String} (hr : ∀ c ∈ r.data, isQuote c = false ∧ isDotChar c = true)
    {p : String} (hres : b.resolveRequire fs r = some p)
    {m : LuaModule} (hfind : b.modules.find? (fun mod => mod.path == p) = some m) :
    b.remapRequires fs (mkCall q1 q2 r) =
      .ok ("require(\"" ++ m.uniqueIdentifier ++ "\")") := by
  rw [remapRequires_mkCall fs b hq1 hq2 hr]
  simp only [remapCallback, strEta, hres, hfind]

/-- Witness for the amended C8 at the single-quoted call `require('m')`. -/
theorem remap_whole_call_doublequoted_witness :
    bC8.resolveRequire fsC8 "m" = some "d/m.lua"
    ∧ bC8.modules.find? (fun mod => mod.path == "d/m.lua") = some ⟨"m", "d/m.lua", "u", ""⟩
    ∧ bC8.remapRequires fsC8 (mkCall '\'' '\'' "m") = .ok ("require(\"" ++ "u" ++ "\")") :=
  ⟨rfl, rfl,
   @remap_whole_call_doublequoted fsC8 bC8 '\'' '\'' (by decide) (by decide) "m"
     (by decide) "d/m.lua" rfl ⟨"m", "d/m.lua", "u", ""⟩ rfl⟩

/-! ## Registry and assembly lemmas -/

/-- Reference-keyed first-occurrence deduplication: the references the
registration loop will newly admit, given the already-seen references. -/
def dedupFirst (seen : List String) : List (String × String) → List String
  | [] => []
  | (r, _) :: rest =>
    if seen.any (fun x => x == r) then dedupFirst seen rest
    else r :: dedupFirst (seen ++ [r]) rest

theorem any_map_ident (mods : List LuaModule) (r : String) :
    (mods.map (·.identifier)).any (fun x => x == r) =
      mods.any (fun m => m.identifier == r) := by
  induction mods with
  | nil => rfl
  | cons m tail ih => simp [ih]

theorem registerAll_ids (fs : FS) :
    ∀ (reqs : List (String × String)) (mods : List LuaModule) (n : Nat),
    (registerAll fs mods n reqs).1.map (·.identifier) =
      mods.map (·.identifier) ++ dedupFirst (mods.map (·.identifier)) reqs := by
  intro reqs
  induction reqs with
  | nil => intro mods n; simp [registerAll, dedupFirst]
  | cons hd rest ih =>
    intro mods n
    obtain ⟨r, p⟩ := hd
    rw [registerAll, dedupFirst, any_map_ident]
    by_cases h : mods.any (fun m => m.identifier == r) = true
    · rw [if_pos h, if_pos h, ih]
    · rw [if_neg h, if_neg h]
      rw [ih]
      simp [List.append_assoc]

theorem dedupFirst_spec :
    ∀ (reqs : List (String × String)) (seen : List String),
    (dedupFirst seen reqs).Nodup ∧
      ∀ r ∈ dedupFirst seen reqs, seen.any (fun x => x == r) = false := by
  intro reqs
  induction reqs with
  | nil => intro seen; simp [dedupFirst]
  | cons hd rest ih =>
    intro seen
    obtain ⟨a, p⟩ := hd
    rw [dedupFirst]
    by_cases h : seen.any (fun x => x == a) = true
    · rw [if_pos h]; exact ih seen
    · rw [if_neg h]
      simp only [Bool.not_eq_true] at h
      constructor
      · rw [List.nodup_cons]
        refine ⟨fun hmem => ?_, (ih (seen ++ [a])).1⟩
        have := (ih (seen ++ [a])).2 a hmem
        simp [List.any_append] at this
      · intro r hr
        rcases List.mem_cons.mp hr with h1 | h2
        · rw [h1]; exact h
        · have := (ih (seen ++ [a])).2 r h2
          simp only [List.any_append, Bool.or_eq_false_iff] at this
          exact this.1

theorem dedupFirst_mem :
    ∀ (reqs : List (String × String)) (seen : List String) (r : String),
    r ∈ dedupFirst seen reqs ↔
      (r ∈ reqs.map Prod.fst ∧ seen.any (fun x => x == r) = false) := by
  intro reqs
  induction reqs with
  | nil => intro seen r; simp [dedupFirst]
  | cons hd rest ih =>
    intro seen r
    obtain ⟨a, p⟩ := hd
    rw [dedupFirst]
    by_cases h : seen.any (fun x => x == a) = true
    · rw [if_pos h, ih]
      simp only [List.map_cons, List.mem_cons]
      constructor
      · rintro ⟨h1, h2⟩; exact ⟨Or.inr h1, h2⟩
      · rintro ⟨h1 | h1, h2⟩
        · rw [h1] at h2
          rw [h2] at h
          cases h
        · exact ⟨h1, h2⟩
    · rw [if_neg h]
      simp only [Bool.not_eq_true] at h
      simp only [List.mem_cons, ih, List.map_cons, List.any_append,
        Bool.or_eq_false_iff]
      constructor
      · rintro (h1 | ⟨h1, h2, h3⟩)
        · exact ⟨Or.inl h1, by rw [h1]; exact h⟩
        · exact ⟨Or.inr h1, h2⟩
      · rintro ⟨h1 | h1, h2⟩
        · exact Or.inl h1
        · by_cases hra : r = a
          · exact Or.inl hra
          · refine Or.inr ⟨h1, h2, ?_⟩
            have har : a ≠ r := fun hh => hra hh.symm
            simp [har]

theorem buildEntries_ok_forall₂ (fs : FS) (b : LuaBundle) :
    ∀ (ms : List LuaModule) (es : List String), buildEntries fs b ms = .ok es →
    List.Forall₂ (fun m e => ∃ body, b.remapRequires fs m.content = .ok body ∧
      e = wrapEntry m.uniqueIdentifier body) ms es := by
  intro ms
  induction ms with
  | nil =>
    intro es h
    rw [buildEntries] at h
    cases h
    exact List.Forall₂.nil
  | cons m tail ih =>
    intro es h
    rw [buildEntries] at h
    split at h
    · exact absurd h (by simp)
    · rename_i body hbody
      split at h
      · exact absurd h (by simp)
      · rename_i rest hrest
        cases h
        exact List.Forall₂.cons ⟨body, hbody, rfl⟩ (ih rest hrest)

theorem registerAll_fresh (fs : FS) :
    ∀ (reqs : List (String × String)) (mods : List LuaModule) (n : Nat),
    (∀ m ∈ mods, ∃ k, k < n ∧ m.uniqueIdentifier = uuid k) →
    (mods.map (·.uniqueIdentifier)).Nodup →
    (∀ m ∈ (registerAll fs mods n reqs).1,
        ∃ k, k < (registerAll fs mods n reqs).2 ∧ m.uniqueIdentifier = uuid k) ∧
    ((registerAll fs mods n reqs).1.map (·.uniqueIdentifier)).Nodup := by
  intro reqs
  induction reqs with
  | nil =>
    intro mods n h1 h2
    exact ⟨h1, h2⟩
  | cons hd rest ih =>
    intro mods n h1 h2
    obtain ⟨r, p⟩ := hd
    by_cases h : mods.any (fun m => m.identifier == r) = true
    · rw [registerAll, if_pos h]
      exact ih mods n h1 h2
    · rw [registerAll, if_neg h]
      apply ih
      · intro m hm
        rcases List.mem_append.mp hm with hm' | hm'
        · obtain ⟨k, hk, he⟩ := h1 m hm'
          exact ⟨k, Nat.lt_succ_of_lt hk, he⟩
        · rw [List.mem_singleton.mp hm']
          exact ⟨n, Nat.lt_succ_self n, rfl⟩
      · rw [List.map_append]
        simp only [List.map_cons, List.map_nil, List.nodup_append, h2,
          List.nodup_cons, List.not_mem_nil, not_false_iff, List.nodup_nil,
          true_and, List.mem_singleton]
        intro a ha hau
        obtain ⟨m, hm, hma⟩ := List.mem_map.mp ha
        obtain ⟨k, hk, he⟩ := h1 m hm
        rw [← hma, he, List.mem_singleton] at hau
        exact absurd (uuid_inj hau) (Nat.ne_of_lt hk)

theorem bundle_ok_inv (fs : FS) (b : LuaBundle) (fuel n : Nat) (out : String)
    (b' : LuaBundle) (hok : b.bundle fs fuel n = some (.ok (out, b'))) :
    ∃ reqs entries mainR,
      b.getRequiresF fs fuel (fs.read b.mainFile) = some reqs ∧
      b' = { b with modules := (registerAll fs b.modules n reqs).1 } ∧
      b'.modules = (registerAll fs b.modules n reqs).1 ∧
      buildEntries fs b' b'.modules = .ok entries ∧
      b'.remapRequires fs (fs.read b.mainFile) = .ok mainR ∧
      out = shimText ++ joinNL entries ++ "\n" ++ mainR ++ "\n" := by
  simp only [LuaBundle.bundle] at hok
  split at hok
  · exact absurd hok (by simp)
  · rename_i reqs hreq
    have hok' := Option.some.inj hok
    split at hok'
    · exact absurd hok' (by simp)
    · rename_i entries hbe
      split at hok'
      · exact absurd hok' (by simp)
      · rename_i mainR hrm
        have hpair := Except.ok.inj hok'
        have hout : shimText ++ joinNL entries ++ "\n" ++ mainR ++ "\n" = out :=
          congrArg Prod.fst hpair
        have hb' : ({ b with modules := (registerAll fs b.modules n reqs).1 } : LuaBundle) = b' :=
          congrArg Prod.snd hpair
        refine ⟨reqs, entries, mainR, hreq, hb'.symm, ?_, ?_, ?_, hout.symm⟩
        · rw [← hb']
        · rw [← hb']
          exact hbe
        · rw [← hb']
          exact hrm

/-! ## Claim C1: shape of the bundled output -/

/-- **C1**: whenever `bundle()` succeeds, the returned text is exactly the
runtime shim (an empty lookup table and a `require` function that indexes
the table and invokes the stored function), followed by, for each registered
module in `modules` order, an assignment of a function literal into the
lookup table under that module's unique identifier whose body is the
remapped content of that module (entries joined by newlines), followed by
the remapped entry-file content appended unwrapped and not registered in the
lookup table. -/
theorem bundle_output_shape (fs : FS) (b : LuaBundle) (fuel n : Nat)
    (out : String) (b' : LuaBundle)
    (hok : b.bundle fs fuel n = some (.ok (out, b'))) :
    ∃ entries mainR,
      List.Forall₂ (fun m e => ∃ body, b'.remapRequires fs m.content = .ok body ∧
        e = wrapEntry m.uniqueIdentifier body) b'.modules entries
      ∧ b'.remapRequires fs (fs.read b.mainFile) = .ok mainR
      ∧ out = shimText ++ joinNL entries ++ "\n" ++ mainR ++ "\n" := by
  obtain ⟨reqs, entries, mainR, hreq, hb', hbmods, hbe, hrm, hout⟩ :=
    bundle_ok_inv fs b fuel n out b' hok
  exact ⟨entries, mainR, buildEntries_ok_forall₂ fs b' b'.modules entries hbe, hrm, hout⟩

def fsM : FS :=
  ⟨[("main.lua", "require(\"x\")require(\"y\")"), ("d/x.lua", ""), ("d/y.lua", "")]⟩

def bM : LuaBundle := ⟨[], "main.lua", "d"⟩

def outM : String :=
  "\nlocal modules = \x7b\x7d\nlocal require = function(name)\n  return modules[name]()\nend\nmodules[\"u\"] = function()\n\nend\nmodules[\"uu\"] = function()\n\nend\nrequire(\"u\")require(\"uu\")\n"

def bM' : LuaBundle :=
  ⟨[⟨"x", "d/x.lua", "u", ""⟩, ⟨"y", "d/y.lua", "uu", ""⟩], "main.lua", "d"⟩

/-- Witness for C1: a concrete two-module bundle succeeds and has the
stated shape. -/
theorem bundle_output_shape_witness :
    bM.bundle fsM 2 0 = some (.ok (outM, bM'))
    ∧ ∃ entries mainR,
      List.Forall₂ (fun m e => ∃ body, bM'.remapRequires fsM m.content = .ok body ∧
        e = wrapEntry m.uniqueIdentifier body) bM'.modules entries
      ∧ bM'.remapRequires fsM (fsM.read bM.mainFile) = .ok mainR
      ∧ outM = shimText ++ joinNL entries ++ "\n" ++ mainR ++ "\n" :=
  ⟨rfl, bundle_output_shape fsM bM 2 0 outM bM' rfl⟩

/-! ## Claim C2: module registry deduplication, keyed by reference -/

/-- **C2**: the modules list built by `bundle()` contains exactly one module
per distinct reference string of the flattened extraction result, in
first-occurrence order — a pair whose reference equals an already-registered
module's reference is skipped — and the dedup key is the reference alone
(`dedupFirst` inspects only `Prod.fst` of the extraction pairs, never the
resolved path). -/
theorem modules_dedup_by_reference (fs : FS) (b : LuaBundle) (fuel n : Nat)
    (out : String) (b' : LuaBundle) (reqs : List (String × String))
    (hmods : b.modules = [])
    (hreq : b.getRequiresF fs fuel (fs.read b.mainFile) = some reqs)
    (hok : b.bundle fs fuel n = some (.ok (out, b'))) :
    b'.modules.map (·.identifier) = dedupFirst [] reqs
    ∧ (b'.modules.map (·.identifier)).Nodup
    ∧ (∀ r : String, r ∈ b'.modules.map (·.identifier) ↔ r ∈ reqs.map Prod.fst) := by
  obtain ⟨reqs2, entries, mainR, hreq2, hb', hbmods, hbe, hrm, hout⟩ :=
    bundle_ok_inv fs b fuel n out b' hok
  rw [hreq] at hreq2
  have hre : reqs = reqs2 := Option.some.inj hreq2
  subst hre
  have hid : b'.modules.map (·.identifier) = dedupFirst [] reqs := by
    rw [hbmods, hmods, registerAll_ids]
    simp
  refine ⟨hid, hid ▸ (dedupFirst_spec reqs []).1, fun r => ?_⟩
  rw [hid, dedupFirst_mem]
  simp

/-- Witness for C2: an entry file requiring `x` then `y` with no shared
dependencies yields exactly the two modules, in order. -/
theorem modules_dedup_by_reference_witness :
    bM.getRequiresF fsM 2 (fsM.read bM.mainFile) = some [("x", "d/x.lua"), ("y", "d/y.lua")]
    ∧ bM'.modules.map (·.identifier) = dedupFirst [] [("x", "d/x.lua"), ("y", "d/y.lua")]
    ∧ bM'.modules.map (·.identifier) = ["x", "y"] :=
  ⟨by decide,
   (modules_dedup_by_reference fsM bM 2 0 outM bM' [("x", "d/x.lua"), ("y", "d/y.lua")]
     rfl (by decide) rfl).1,
   by decide⟩

/-! ## Claim C9: unique identifiers are pairwise distinct -/

/-- **C9**: starting from a freshly constructed bundle (`modules = []`), the
unique identifiers of the registered modules are pairwise distinct after
`bundle()` completes, and also at every intermediate point of the
registration loop (after any prefix of the extraction result). -/
theorem bundle_uids_nodup (fs : FS) (b : LuaBundle) (fuel n : Nat)
    (out : String) (b' : LuaBundle) (reqs : List (String × String))
    (hmods : b.modules = [])
    (hreq : b.getRequiresF fs fuel (fs.read b.mainFile) = some reqs)
    (hok : b.bundle fs fuel n = some (.ok (out, b'))) :
    (b'.modules.map (·.uniqueIdentifier)).Nodup
    ∧ ∀ k, ((registerAll fs [] n (reqs.take k)).1.map (·.uniqueIdentifier)).Nodup := by
  constructor
  · obtain ⟨reqs2, entries, mainR, hreq2, hb', hbmods, hbe, hrm, hout⟩ :=
      bundle_ok_inv fs b fuel n out b' hok
    rw [hbmods, hmods]
    exact (registerAll_fresh fs reqs2 [] n
      (fun m hm => absurd hm (List.not_mem_nil m)) (by simp)).2
  · intro k
    exact (registerAll_fresh fs (reqs.take k) [] n
      (fun m hm => absurd hm (List.not_mem_nil m)) (by simp)).2

/-- Witness for C9 on the concrete two-module bundle. -/
theorem bundle_uids_nodup_witness :
    bM'.modules.map (·.uniqueIdentifier) = ["u", "uu"]
    ∧ (bM'.modules.map (·.uniqueIdentifier)).Nodup :=
  ⟨by decide,
   (bundle_uids_nodup fsM bM 2 0 outM bM' [("x", "d/x.lua"), ("y", "d/y.lua")]
     rfl (by decide) rfl).1⟩

/-! ## Claim C6: termination on acyclic require graphs -/

theorem getReqAux_isSome (fs : FS) (b : LuaBundle)
    (recur : String → Option (List (String × String))) :
    ∀ vs : List (List Char),
    (∀ v ∈ vs, ∀ p, b.resolveRequire fs ⟨replaceFirstWithGroup v⟩ = some p →
      (recur (fs.read p)).isSome) →
    (getReqAux fs b recur vs).isSome := by
  intro vs
  induction vs with
  | nil => intro _; rfl
  | cons v tail ih =>
    intro h
    rw [getReqAux]
    cases hres : b.resolveRequire fs ⟨replaceFirstWithGroup v⟩ with
    | none =>
      simp only [hres]
      exact ih (fun w hw q hq => h w (by simp [hw]) q hq)
    | some p =>
      have hrec := h v (by simp) p hres
      cases hrecv : recur (fs.read p) with
      | none => rw [hrecv] at hrec; exact absurd hrec (by simp)
      | some rest =>
        have htail := ih (fun w hw q hq => h w (by simp [hw]) q hq)
        cases htailv : getReqAux fs b recur tail with
        | none => rw [htailv] at htail; exact absurd htail (by simp)
        | some t => simp [hres, hrecv, htailv]

theorem getRequiresF_acyclic_isSome (fs : FS) (b : LuaBundle) (rank : String → Nat)
    (hrank : ∀ p q, q ∈ pathDeps fs b (fs.read p) → rank q < rank p) :
    ∀ (fuel : Nat) (value : String),
    (∀ q ∈ pathDeps fs b value, rank q < fuel) →
    (b.getRequiresF fs (fuel + 1) value).isSome := by
  intro fuel
  induction fuel with
  | zero =>
    intro value hv
    rw [LuaBundle.getRequiresF]
    apply getReqAux_isSome
    intro v hvmem p hp
    exfalso
    have hq : p ∈ pathDeps fs b value := by
      rw [pathDeps]
      exact List.mem_filterMap.mpr ⟨v, hvmem, hp⟩
    exact Nat.not_lt_zero _ (hv p hq)
  | succ f ih =>
    intro value hv
    rw [LuaBundle.getRequiresF]
    apply getReqAux_isSome
    intro v hvmem p hp
    have hq : p ∈ pathDeps fs b value := by
      rw [pathDeps]
      exact List.mem_filterMap.mpr ⟨v, hvmem, hp⟩
    apply ih
    intro q hq2
    have h1 : rank q < rank p := hrank p q hq2
    have h2 : rank p < f + 1 := hv p hq
    omega

/-- **C6**: if the reachable resolved-file relation of the require graph is
acyclic — witnessed by a rank function that strictly decreases along the
dependency edges `getRequires` recurses over — then the recursive extraction
terminates (with fuel covering the rank bound it returns a value rather than
exhausting the call stack), and hence the whole `bundle()` assembly
terminates. -/
theorem acyclic_extraction_terminates (fs : FS) (b : LuaBundle)
    (rank : String → Nat)
    (hrank : ∀ p q, q ∈ pathDeps fs b (fs.read p) → rank q < rank p)
    (fuel : Nat)
    (hfuel : ∀ q ∈ pathDeps fs b (fs.read b.mainFile), rank q < fuel)
    (n : Nat) :
    (b.getRequiresF fs (fuel + 1) (fs.read b.mainFile)).isSome
    ∧ (b.bundle fs (fuel + 1) n).isSome := by
  have h := getRequiresF_acyclic_isSome fs b rank hrank fuel (fs.read b.mainFile) hfuel
  refine ⟨h, ?_⟩
  cases hg : b.getRequiresF fs (fuel + 1) (fs.read b.mainFile) with
  | none => rw [hg] at h; exact absurd h (by simp)
  | some reqs => simp [LuaBundle.bundle, hg]

/-- Rank function witnessing acyclicity of the concrete example graph. -/
def rankM : String → Nat := fun p => if p = "main.lua" then 1 else 0

theorem rankM_ok : ∀ p q, q ∈ pathDeps fsM bM (fsM.read p) → rankM q < rankM p := by
  intro p q hq
  by_cases hp : p = "main.lua"
  · subst hp
    have hd : pathDeps fsM bM (fsM.read "main.lua") = ["d/x.lua", "d/y.lua"] := by decide
    rw [hd] at hq
    rcases List.mem_cons.mp hq with rfl | hq'
    · decide
    · rcases List.mem_cons.mp hq' with rfl | hq''
      · decide
      · cases hq''
  · exfalso
    have hread : pathDeps fsM bM (fsM.read p) = [] := by
      by_cases h1 : p = "d/x.lua"
      · subst h1; decide
      · by_cases h2 : p = "d/y.lua"
        · subst h2; decide
        · have e1 : (p == "main.lua") = false := beq_eq_false_iff_ne.mpr hp
          have e2 : (p == "d/x.lua") = false := beq_eq_false_iff_ne.mpr h1
          have e3 : (p == "d/y.lua") = false := beq_eq_false_iff_ne.mpr h2
          have hr : fsM.read p = "" := by
            simp [FS.read, fsM, List.lookup, e1, e2, e3]
          rw [hr]
          decide
    rw [hread] at hq
    cases hq

/-- Witness for C6: the concrete three-file acyclic graph terminates. -/
theorem acyclic_extraction_terminates_witness :
    (∀ p q, q ∈ pathDeps fsM bM (fsM.read p) → rankM q < rankM p)
    ∧ (∀ q ∈ pathDeps fsM bM (fsM.read bM.mainFile), rankM q < 1)
    ∧ (bM.getRequiresF fsM 2 (fsM.read bM.mainFile)).isSome
    ∧ (bM.bundle fsM 2 0).isSome :=
  ⟨rankM_ok, by decide,
   (acyclic_extraction_terminates fsM bM rankM rankM_ok 1 (by decide) 0).1,
   (acyclic_extraction_terminates fsM bM rankM rankM_ok 1 (by decide) 0).2⟩

/-! ## Claim C10: two references resolving to the same file -/

theorem find?_path_first (P : String) :
    ∀ (pre : List LuaModule) (m1 : LuaModule) (rest : List LuaModule),
    (∀ m ∈ pre, m.path ≠ P) → m1.path = P →
    (pre ++ m1 :: rest).find? (fun m => m.path == P) = some m1 := by
  intro pre
  induction pre with
  | nil =>
    intro m1 rest hpre hm1
    simp [List.find?, hm1]
  | cons a tail ih =>
    intro m1 rest hpre hm1
    have ha : (a.path == P) = false := beq_eq_false_iff_ne.mpr (hpre a (by simp))
    simp only [List.cons_append, List.find?, ha]
    exact ih m1 rest (fun m hm => hpre m (by simp [hm])) hm1

theorem forall₂_mem_left {α β : Type} {R : α → β → Prop} :
    ∀ {l1 : List α} {l2 : List β}, List.Forall₂ R l1 l2 → ∀ a ∈ l1, ∃ e ∈ l2, R a e := by
  intro l1 l2 h
  induction h with
  | nil => intro a ha; exact absurd ha (List.not_mem_nil a)
  | @cons x y xs ys hr ht ih =>
    intro a ha
    rcases List.mem_cons.mp ha with rfl | ha'
    · exact ⟨y, by simp, hr⟩
    · obtain ⟨e, he, hre⟩ := ih a ha'
      exact ⟨e, by simp [he], hre⟩

theorem requireText_inj {u v : String}
    (h : ("require(\"" ++ u ++ "\")").data = ("require(\"" ++ v ++ "\")").data) : u = v := by
  rw [String.data_append, String.data_append, String.data_append, String.data_append,
    List.append_assoc, List.append_assoc] at h
  have h1 := List.append_cancel_left h
  have h2 := List.append_cancel_right h1
  exact String.ext h2

/-- **C10**: when two module records share one resolved path (two distinct
reference strings resolved to the same file), every literal require whose
reference resolves to that path is rewritten to the unique identifier of the
earlier-registered of those modules — the lookup takes the first module
whose path matches — that identifier differs from the later record's, the
later record is still emitted as a wrapped entry, and the later record's
unique identifier is never the target of any rewritten require call. -/
theorem duplicate_path_remap_targets (fs : FS) (b : LuaBundle)
    (pre mid post : List LuaModule) (m1 m2 : LuaModule)
    (hsplit : b.modules = pre ++ m1 :: (mid ++ m2 :: post))
    (hpath : m1.path = m2.path)
    (hpre : ∀ m ∈ pre, m.path ≠ m2.path)
    (hnodup : (b.modules.map (·.uniqueIdentifier)).Nodup)
    (r : String) (hres : b.resolveRequire fs r = some m2.path) :
    remapCallback fs b r.data = .ok (("require(\"" ++ m1.uniqueIdentifier ++ "\")").data)
    ∧ m1.uniqueIdentifier ≠ m2.uniqueIdentifier
    ∧ (∀ (r' : String) (l : List Char), remapCallback fs b r'.data = .ok l →
        l ≠ ("require(\"" ++ m2.uniqueIdentifier ++ "\")").data)
    ∧ (∀ entries, buildEntries fs b b.modules = .ok entries →
        ∃ body, b.remapRequires fs m2.content = .ok body ∧
          wrapEntry m2.uniqueIdentifier body ∈ entries) := by
  have hfind : b.modules.find? (fun m => m.path == m2.path) = some m1 := by
    rw [hsplit]
    exact find?_path_first m2.path pre m1 (mid ++ m2 :: post) hpre hpath
  have hm2mem : m2 ∈ b.modules := by rw [hsplit]; simp
  have hne : m1.uniqueIdentifier ≠ m2.uniqueIdentifier := by
    have hsub : [m1.uniqueIdentifier, m2.uniqueIdentifier].Sublist
        (b.modules.map (·.uniqueIdentifier)) := by
      rw [hsplit]
      simp only [List.map_append, List.map_cons]
      refine List.Sublist.trans ?_ (List.sublist_append_right (pre.map (·.uniqueIdentifier)) _)
      refine List.Sublist.cons₂ _ ?_
      refine List.Sublist.trans ?_ (List.sublist_append_right (mid.map (·.uniqueIdentifier)) _)
      exact List.Sublist.cons₂ _ (List.nil_sublist _)
    have hnd := hnodup.sublist hsub
    simp at hnd
    exact hnd
  refine ⟨?_, hne, ?_, ?_⟩
  · simp only [remapCallback, strEta, hres, hfind]
  · intro r' l hok hl
    simp only [remapCallback, strEta] at hok
    split at hok
    · exact absurd hok (by simp)
    · rename_i p' hres'
      split at hok
      · exact absurd hok (by simp)
      · rename_i m' hfind'
        have hl' := Except.ok.inj hok
        rw [← hl'] at hl
        have huid : m'.uniqueIdentifier = m2.uniqueIdentifier := requireText_inj hl
        have hm'mem : m' ∈ b.modules := List.mem_of_find?_eq_some hfind'
        have hm'm2 : m' = m2 :=
          List.inj_on_of_nodup_map hnodup hm'mem hm2mem huid
        have hp' : m'.path = p' := by
          have := List.find?_some hfind'
          exact beq_iff_eq.mp this
        rw [hm'm2] at hp'
        rw [← hp'] at hfind'
        rw [hfind] at hfind'
        have hm1m' : m1 = m' := Option.some.inj hfind'
        rw [hm1m', hm'm2] at hne
        exact hne rfl
  · intro entries hbe
    have hf := buildEntries_ok_forall₂ fs b b.modules entries hbe
    obtain ⟨e, he, hR⟩ := forall₂_mem_left hf m2 hm2mem
    obtain ⟨body, hbody, rfl⟩ := hR
    exact ⟨body, hbody, he⟩

def fsD : FS := ⟨[("d/m/x.lua", "")]⟩

def bD : LuaBundle :=
  ⟨[⟨"m.x", "d/m/x.lua", "u", ""⟩, ⟨"m/x", "d/m/x.lua", "v", ""⟩], "main.lua", "d"⟩

/-- Witness for C10: the distinct references `m.x` (dotted) and `m/x`
(embedded separator) both resolve to `d/m/x.lua`, giving two module records
sharing one resolved path; requires of the second reference are rewritten to
the first module's identifier. -/
theorem duplicate_path_remap_targets_witness :
    bD.modules = [] ++ (⟨"m.x", "d/m/x.lua", "u", ""⟩ : LuaModule) ::
      ([] ++ (⟨"m/x", "d/m/x.lua", "v", ""⟩ : LuaModule) :: [])
    ∧ (bD.modules.map (·.uniqueIdentifier)).Nodup
    ∧ bD.resolveRequire fsD "m/x" = some "d/m/x.lua"
    ∧ bD.resolveRequire fsD "m.x" = some "d/m/x.lua"
    ∧ remapCallback fsD bD ("m/x" : String).data = .ok (("require(\"" ++ "u" ++ "\")").data)
    ∧ ("u" : String) ≠ "v" :=
  ⟨rfl, by decide, by decide, by decide,
   (duplicate_path_remap_targets fsD bD [] [] [] ⟨"m.x", "d/m/x.lua", "u", ""⟩
     ⟨"m/x", "d/m/x.lua", "v", ""⟩ rfl rfl (fun m hm => absurd hm (List.not_mem_nil m))
     (by decide) "m/x" (by decide)).1,
   (duplicate_path_remap_targets fsD bD [] [] [] ⟨"m.x", "d/m/x.lua", "u", ""⟩
     ⟨"m/x", "d/m/x.lua", "v", ""⟩ rfl rfl (fun m hm => absurd hm (List.not_mem_nil m))
     (by decide) "m/x" (by decide)).2.1⟩
